import Mathlib

/-
  Shallow embedding of the KayaScraper ingestion engine
  (src/kaya/kaya_ingest_loop.py, src/kaya/KayaProjects/models.py,
  src/kaya/KayaSettings/models.py).

  Conventions of the embedding:
  * Python dict payloads become a `Payload` structure whose optional keys are
    `Option`-typed (`payload.get(k)` returning `None` is `none`).
  * The Django ORM store becomes an explicit `DB` value threaded through the
    operations; `update_or_create` keyed on a unique column becomes an
    update-in-place-or-append on the corresponding row list.
  * A Python exception becomes `Except`/`Option` error propagation; a
    `try/except` block that logs and continues becomes the caught branch
    leaving the state unchanged.
  * `datetime.fromtimestamp(ms / 1000.0, tz=utc)` is injective in `ms`, so an
    instant is represented by its epoch-millisecond value.
-/

namespace Kaya

/-- A job reference carried inside a listing payload (`payload["jobs"]`
entries); `j.get("id")` and `j.get("name")` are both present in practice, the
name may be absent. -/
structure JobRef where
  id : Nat
  name : Option String
deriving DecidableEq

/-- A raw listing payload as fetched from the upstream API: the dict read by
`KayaProject.upsert_from_payload`.  `jobs` entries that are falsy in Python
(`if not j: continue`) are `none`. -/
structure Payload where
  project_id : Option Int
  submit_date : Option Int
  title : Option String
  description : Option String
  is_hourly : Bool
  budget_minimum : Option Int
  budget_maximum : Option Int
  currency_code : Option String
  has_attachment : Bool
  payment_verified : Bool
  owner_country : Option String
  owner_country_code : Option String
  owner_city : Option String
  freelancer_url : Option String
  jobs : List (Option JobRef)
deriving DecidableEq

/-- KayaProject._ms_to_dt: `if ms and ms < 10_000_000_000: ms = ms * 1000;
return datetime.fromtimestamp(ms / 1000.0, tz=utc)`.  The returned instant is
represented by its epoch-millisecond value (the conversion to a datetime is
injective in that value). -/
def _ms_to_dt (ms : Int) : Int :=
  if ms ≠ 0 ∧ ms < 10000000000 then ms * 1000 else ms

/-- The non-key columns of a KayaProject row written by `update_or_create`'s
`defaults` (auto timestamps omitted). -/
structure ProjectFields where
  submit_date : Int
  title : String
  description : String
  is_hourly : Bool
  budget_minimum : Option Int
  budget_maximum : Option Int
  currency_code : String
  has_attachment : Bool
  payment_verified : Bool
  owner_country : Option String
  owner_country_code : Option String
  owner_city : Option String
  freelancer_url : Option String
deriving DecidableEq

/-- A stored KayaProject row: unique key `project_id`, the defaulted columns,
and the many-to-many `jobs` association set (as Job external ids). -/
structure ProjectRow where
  project_id : Int
  fields : ProjectFields
  jobIds : List Nat
deriving DecidableEq

/-- A stored Job row: unique key `external_id` plus a name. -/
structure JobRow where
  external_id : Nat
  name : String
deriving DecidableEq

/-- The persistent store: the KayaProject table and the Job table. -/
structure DB where
  projects : List ProjectRow
  jobs : List JobRow
deriving DecidableEq

/-- The `defaults` dict of `KayaProject.upsert_from_payload` evaluated on a
payload whose `submit_date` is `ms`: each `payload.get(k) or ""` is
`(… ).getD ""`, each `bool(…)` is the payload's boolean, nullable columns are
stored as-is. -/
def fieldsOfPayload (p : Payload) (ms : Int) : ProjectFields :=
  { submit_date := _ms_to_dt ms
    title := p.title.getD ""
    description := p.description.getD ""
    is_hourly := p.is_hourly
    budget_minimum := p.budget_minimum
    budget_maximum := p.budget_maximum
    currency_code := p.currency_code.getD ""
    has_attachment := p.has_attachment
    payment_verified := p.payment_verified
    owner_country := p.owner_country
    owner_country_code := p.owner_country_code
    owner_city := p.owner_city
    freelancer_url := p.freelancer_url }

/-- Job.objects.update_or_create keyed on `external_id` with
`defaults={"name": j.get("name") or ""}`. -/
def upsertJob (jobs : List JobRow) (j : JobRef) : List JobRow :=
  if jobs.any (fun r => r.external_id = j.id) then
    jobs.map (fun r =>
      if r.external_id = j.id then { r with name := j.name.getD "" } else r)
  else
    jobs ++ [{ external_id := j.id, name := j.name.getD "" }]

/-- KayaProject.objects.update_or_create keyed on `project_id`: update the
defaulted columns of the existing row, or append a fresh row (a fresh row has
no associations yet). -/
def applyDefaults (projects : List ProjectRow) (pid : Int) (fields : ProjectFields) :
    List ProjectRow :=
  if projects.any (fun r => r.project_id = pid) then
    projects.map (fun r =>
      if r.project_id = pid then { r with fields := fields } else r)
  else
    projects ++ [{ project_id := pid, fields := fields, jobIds := [] }]

/-- The m2m write at the end of `upsert_from_payload`: `obj.jobs.set(job_objs)`
when `job_objs` is non-empty, `obj.jobs.clear()` otherwise.  Both replace the
full association set of the `pid` row with the (de-duplicated) id list, which
is `[]` exactly in the `clear` case. -/
def setJobIds (projects : List ProjectRow) (pid : Int) (jobIds : List Nat) :
    List ProjectRow :=
  projects.map (fun r =>
    if r.project_id = pid then { r with jobIds := jobIds } else r)

/-- The ways `upsert_from_payload` raises on the payload itself:
`payload.get("submit_date")` being `None` makes `_ms_to_dt` raise a TypeError
(`None / 1000.0`), and a missing `"project_id"` key raises KeyError at
`payload["project_id"]` (in that evaluation order). -/
inductive UpsertError where
  | missingSubmitDate
  | missingProjectId
deriving DecidableEq

/-- KayaProject.upsert_from_payload: normalize `submit_date`, `update_or_create`
the row keyed by `project_id` with the defaulted columns, upsert each truthy
jobs entry into the Job table, then replace the row's full association set
(clearing it when the payload carries no truthy jobs entry). -/
def upsert_from_payload (db : DB) (p : Payload) : Except UpsertError DB :=
  match p.submit_date with
  | none => .error .missingSubmitDate
  | some ms =>
    match p.project_id with
    | none => .error .missingProjectId
    | some pid =>
      let fields := fieldsOfPayload p ms
      let projects1 := applyDefaults db.projects pid fields
      let jobRefs := p.jobs.filterMap id
      let jobs1 := jobRefs.foldl upsertJob db.jobs
      let jobIds := (jobRefs.map (fun j => j.id)).dedup
      let projects2 := setJobIds projects1 pid jobIds
      .ok { projects := projects2, jobs := jobs1 }

/-- The fate of one `KayaProject.upsert_from_payload(payload)` call inside
`ingest_once`: `oracle p = true` models an environmental exception (database
error) raised by the call, on top of the payload-level errors of the model;
`none` means the call raised (and is caught by the per-record `except`),
`some db'` means it returned, leaving the store `db'`. -/
def tryUpsert (oracle : Payload → Bool) (db : DB) (p : Payload) : Option DB :=
  if oracle p then none
  else
    match upsert_from_payload db p with
    | .error _ => none
    | .ok db' => some db'

/-- The cycle-scoped state of `ingest_once`: the `processed` counter, the
`seen` set of project ids (insertion order kept), the trace of
`upsert_from_payload` invocations `(pid, succeeded)`, and the store. -/
structure IngestState where
  processed : Nat
  seen : List (Option Int)
  calls : List (Option Int × Bool)
  db : DB
deriving DecidableEq

/-- The body of the inner `for payload in fetch_all_for_skill(...)` loop:
`pid = payload.get("project_id"); if pid in seen: continue;
try: upsert; processed += 1; seen.add(pid); except: log`.  The id is added to
`seen` (and `processed` bumped) only after the upsert returns. -/
def processPayload (oracle : Payload → Bool) (st : IngestState) (p : Payload) :
    IngestState :=
  let pid := p.project_id
  if pid ∈ st.seen then st
  else
    match tryUpsert oracle st.db p with
    | none => { st with calls := st.calls ++ [(pid, false)] }
    | some db' =>
      { processed := st.processed + 1
        seen := st.seen ++ [pid]
        calls := st.calls ++ [(pid, true)]
        db := db' }

/-- The outcome of `fetch_all_for_skill` for one skill as observed by
`ingest_once`: the payloads the generator yielded before finishing or raising,
and `some ()` when it raised (an HTTPError or unexpected exception, caught by
the per-skill `except` clauses which log and move to the next skill). -/
def FetchOutcome : Type := List Payload × Option Unit

/-- One iteration of the `for skill in skills` loop: every payload the
generator yields goes through the dedup-and-upsert body; a raise after those
yields is caught at skill level, so it contributes nothing further. -/
def processSkill (oracle : Payload → Bool) (fetch : Nat → FetchOutcome)
    (st : IngestState) (skill : Nat) : IngestState :=
  (fetch skill).1.foldl (processPayload oracle) st

/-- The fresh cycle state built at the top of `ingest_once`. -/
def initState (db : DB) : IngestState :=
  { processed := 0, seen := [], calls := [], db := db }

/-- The whole of `ingest_once` except its return statement.  The early return
on an empty skill list coincides with folding over `[]`, so it needs no
separate branch. -/
def ingestRun (oracle : Payload → Bool) (fetch : Nat → FetchOutcome) (db : DB)
    (skills : List Nat) : IngestState :=
  skills.foldl (processSkill oracle fetch) (initState db)

/-- ingest_once returns its `processed` counter. -/
def ingest_once (oracle : Payload → Bool) (fetch : Nat → FetchOutcome) (db : DB)
    (skills : List Nat) : Nat :=
  (ingestRun oracle fetch db skills).processed

/-- The JSON body of one page request: either a bare array, or an object whose
array sits under `"projects"` or `"results"` (either key possibly absent). -/
inductive ApiResponse where
  | bare (items : List Payload)
  | envelope (projects : Option (List Payload)) (results : Option (List Payload))

/-- fetch_page: request one page (the HTTP layer abstracted into `server`,
indexed by skill id and offset) and normalize the envelope:
`data.get("projects") or data.get("results") or []` — the first truthy
(present and non-empty) array wins, else `[]`. -/
def fetch_page (server : Nat → Nat → ApiResponse) (skill_id : Nat) (offset : Nat) :
    List Payload :=
  match server skill_id offset with
  | .bare l => l
  | .envelope pr rs =>
    let a := pr.getD []
    if a ≠ [] then a else rs.getD []

/-- fetch_all_for_skill's loop, with explicit fuel standing for the number of
page requests the run is allowed (the Python `while True` has none; a run that
does not reach an empty page within the fuel is `none`).  Returns the offsets
requested, in order, and the items yielded. -/
def fetchAllAux (server : Nat → Nat → ApiResponse) (skill_id : Nat) :
    Nat → Nat → Option (List Nat × List Payload)
  | _, 0 => none
  | offset, fuel + 1 =>
    let batch := fetch_page server skill_id offset
    if batch = [] then some ([offset], [])
    else
      match fetchAllAux server skill_id (offset + batch.length) fuel with
      | none => none
      | some (offs, rest) => some (offset :: offs, batch ++ rest)

/-- fetch_all_for_skill: iterate all pages for one skill id starting at
offset 0, advancing the offset by each batch's length, stopping at the first
empty batch. -/
def fetch_all_for_skill (server : Nat → Nat → ApiResponse) (skill_id : Nat)
    (fuel : Nat) : Option (List Nat × List Payload) :=
  fetchAllAux server skill_id 0 fuel

/-- The upstream behaves, from `offset` on, as the page sequence `pages`
followed by an empty page: each page is served at the cumulative offset the
loop computes, and the request after the last page returns zero items. -/
def serves (server : Nat → Nat → ApiResponse) (skill_id : Nat) :
    Nat → List (List Payload) → Prop
  | offset, [] => fetch_page server skill_id offset = []
  | offset, p :: rest =>
    fetch_page server skill_id offset = p ∧
      serves server skill_id (offset + p.length) rest

/-- The offsets the loop requests when served `pages` from `offset`: one per
page plus the final empty-page request. -/
def requestOffsets (offset : Nat) : List (List Payload) → List Nat
  | [] => [offset]
  | p :: rest => offset :: requestOffsets (offset + p.length) rest

/-- The KayaSetting singleton row as read by `load_settings`: the
`interval_minutes` column (a PositiveIntegerField, so `0` is storable and
caught by the `or 10`) and the selected jobs' external ids. -/
structure SettingsRow where
  interval_minutes : Nat
  jobs : List Nat
deriving DecidableEq

/-- Job.objects.values_list("external_id", flat=True) over the store. -/
def jobUniverse (db : DB) : List Nat :=
  db.jobs.map (fun r => r.external_id)

/-- load_settings: `KayaSetting.load()` may raise (modelled by the `Except`
argument, propagated); on a row, `interval_minutes = max(10,
int(settings.interval_minutes or 10))` and the skills are the selected jobs
when any exist, else every Job external id. -/
def load_settings (loadResult : Except Unit SettingsRow) (univ : List Nat) :
    Except Unit (Nat × List Nat) :=
  match loadResult with
  | .error e => .error e
  | .ok s =>
    let interval_minutes :=
      max 10 (if s.interval_minutes = 0 then 10 else s.interval_minutes)
    let skills := if s.jobs ≠ [] then s.jobs else univ
    .ok (interval_minutes, skills)

/-- The environment one iteration of `main`'s `while True` runs against:
the settings read (which may raise), the store at cycle start, the per-skill
fetch outcomes, the upsert oracle, and whether the end-of-cycle
`KayaSetting.load(); setting.save()` pair returns (`saveOk = false` models
either of those two calls raising). -/
structure CycleEnv where
  settingsLoad : Except Unit SettingsRow
  db0 : DB
  fetch : Nat → FetchOutcome
  oracle : Payload → Bool
  saveOk : Bool

/-- What one completed cycle iteration produced. -/
structure CycleOutcome where
  interval_minutes : Nat
  skills : List Nat
  ingested : Nat
  sleep_secs : Nat
  st : IngestState
deriving DecidableEq

/-- One iteration of `main`'s loop body, up to the `time.sleep` call.
`load_settings` failures are caught and defaulted (10 minutes, all Job
external ids); `ingest_once` is wrapped in its own try; the sleep is
`max(600, interval_minutes * 60)`; but the final `KayaSetting.load()` /
`setting.save()` pair sits outside every `try`, so its raising (`saveOk =
false`) propagates out of the iteration — `.error ()` here — which in the
Python process escapes the `while True` and terminates `main`. -/
def run_cycle (env : CycleEnv) : Except Unit CycleOutcome :=
  let loaded :=
    match load_settings env.settingsLoad (jobUniverse env.db0) with
    | .ok p => p
    | .error _ => (10, jobUniverse env.db0)
  let st := ingestRun env.oracle env.fetch env.db0 loaded.2
  let sleep_secs := max 600 (loaded.1 * 60)
  if env.saveOk then
    .ok { interval_minutes := loaded.1, skills := loaded.2,
          ingested := st.processed, sleep_secs := sleep_secs, st := st }
  else
    .error ()

/-- A minimal payload builder used by concrete instances below. -/
def mkPayload (pid : Option Int) (sd : Option Int) (t : Option String)
    (js : List (Option JobRef)) : Payload :=
  { project_id := pid, submit_date := sd, title := t, description := none,
    is_hourly := false, budget_minimum := none, budget_maximum := none,
    currency_code := none, has_attachment := false, payment_verified := false,
    owner_country := none, owner_country_code := none, owner_city := none,
    freelancer_url := none, jobs := js }

/-- C9: the normalization `_ms_to_dt` treats integer timestamps below
10,000,000,000 as epoch seconds and rescales them to milliseconds, treats
values at or above the threshold as epoch milliseconds, and in particular
sends 1700000000 and 1700000000000 to the same instant. -/
theorem ms_to_dt_threshold (ms : Int) :
    (ms < 10000000000 → _ms_to_dt ms = ms * 1000) ∧
    (10000000000 ≤ ms → _ms_to_dt ms = ms) ∧
    _ms_to_dt 1700000000 = _ms_to_dt 1700000000000 := by
  refine ⟨?_, ?_, by decide⟩
  · intro h
    by_cases h0 : ms = 0
    · simp [_ms_to_dt, h0]
    · simp [_ms_to_dt, h0, h]
  · intro h
    have hc : ¬(ms ≠ 0 ∧ ms < 10000000000) := by omega
    simp [_ms_to_dt, hc]

/-- A cycle environment whose only failing step is the end-of-cycle
`KayaSetting.load(); setting.save()` pair: the settings read succeeds, every
fetch returns no items without raising, and no upsert raises. -/
def envSaveFail : CycleEnv :=
  { settingsLoad := .ok { interval_minutes := 10, jobs := [1] }
    db0 := { projects := [], jobs := [] }
    fetch := fun _ => ([], none)
    oracle := fun _ => false
    saveOk := false }

/-- C2: at the environment whose only internal failure is the end-of-cycle
write of the completion timestamp to the settings record, the cycle iteration
propagates the error instead of catching it (the `KayaSetting.load()` /
`setting.save()` pair at the bottom of `main`'s loop sits outside every
`try`), so that internal failure escapes the loop and terminates the
process. -/
theorem cycle_save_error_escapes : run_cycle envSaveFail = .error () := rfl

/-- C5: when loading settings raises, the cycle still runs to completion
(provided the unrelated end-of-cycle settings write returns): the interval
defaults to 10 minutes (hence a 600-second sleep), the skill set defaults to
the full Job external-id universe, and the ingest pass really runs on that
universe. -/
theorem settings_fallback (env : CycleEnv)
    (hset : env.settingsLoad = .error ())
    (hsave : env.saveOk = true) :
    run_cycle env = .ok
      { interval_minutes := 10
        skills := jobUniverse env.db0
        ingested :=
          (ingestRun env.oracle env.fetch env.db0 (jobUniverse env.db0)).processed
        sleep_secs := 600
        st := ingestRun env.oracle env.fetch env.db0 (jobUniverse env.db0) } := by
  simp [run_cycle, load_settings, hset, hsave]

/-- A cycle environment whose settings read raises, over a store that knows
two jobs. -/
def envW5 : CycleEnv :=
  { settingsLoad := .error ()
    db0 := { projects := [], jobs := [{ external_id := 4, name := "a" },
                                      { external_id := 9, name := "b" }] }
    fetch := fun _ => ([], none)
    oracle := fun _ => false
    saveOk := true }

/-- C5 witness: the fallback theorem applied to a concrete failing settings
read. -/
theorem settings_fallback_witness :
    run_cycle envW5 = .ok
      { interval_minutes := 10
        skills := jobUniverse envW5.db0
        ingested :=
          (ingestRun envW5.oracle envW5.fetch envW5.db0 (jobUniverse envW5.db0)).processed
        sleep_secs := 600
        st := ingestRun envW5.oracle envW5.fetch envW5.db0 (jobUniverse envW5.db0) } :=
  settings_fallback envW5 rfl rfl

/-- C8: every completed cycle sleeps exactly `max 600 (interval * 60)` seconds
for its loaded interval, never below 600; and a settings row reporting a
3-minute interval yields a sleep of exactly 600 seconds. -/
theorem sleep_floor (env : CycleEnv) (o : CycleOutcome)
    (h : run_cycle env = .ok o) :
    o.sleep_secs = max 600 (o.interval_minutes * 60) ∧
    600 ≤ o.sleep_secs ∧
    (∀ js : List Nat, env.settingsLoad = .ok { interval_minutes := 3, jobs := js } →
      o.sleep_secs = 600) := by
  by_cases hs : env.saveOk
  · simp only [run_cycle, hs, if_true, Except.ok.injEq] at h
    subst h
    refine ⟨rfl, ?_, ?_⟩
    · exact le_max_left 600 _
    · intro js hjs
      simp [load_settings, hjs]
  · simp [run_cycle, hs] at h

/-- A cycle environment whose settings row reports a 3-minute interval. -/
def envW8 : CycleEnv :=
  { settingsLoad := .ok { interval_minutes := 3, jobs := [] }
    db0 := { projects := [], jobs := [] }
    fetch := fun _ => ([], none)
    oracle := fun _ => false
    saveOk := true }

/-- The outcome `run_cycle envW8` produces. -/
def outW8 : CycleOutcome :=
  { interval_minutes := 10, skills := [], ingested := 0, sleep_secs := 600,
    st := initState { projects := [], jobs := [] } }

/-- C8 witness: the floor theorem applied to the concrete 3-minute settings
row, whose effective sleep is 600 seconds, not 180. -/
theorem sleep_floor_witness :
    outW8.sleep_secs = max 600 (outW8.interval_minutes * 60) ∧
    600 ≤ outW8.sleep_secs ∧
    (∀ js : List Nat, envW8.settingsLoad = .ok { interval_minutes := 3, jobs := js } →
      outW8.sleep_secs = 600) :=
  sleep_floor envW8 outW8 rfl

/-- C6: a skill whose fetch raises before yielding anything is skipped and
contributes nothing, and the cycle state — every other category's fetches,
dedup decisions and upserts — is exactly what it would have been had that
skill not been requested at all: the remaining categories are all still
attempted and their records still upserted. -/
theorem category_isolation (oracle : Payload → Bool) (fetch : Nat → FetchOutcome)
    (db : DB) (s1 s2 : List Nat) (a : Nat)
    (ha : fetch a = ([], some ())) :
    ingestRun oracle fetch db (s1 ++ a :: s2) = ingestRun oracle fetch db (s1 ++ s2) := by
  have hskip : ∀ st : IngestState, processSkill oracle fetch st a = st := by
    intro st
    simp [processSkill, ha]
  unfold ingestRun
  rw [List.foldl_append, List.foldl_cons, hskip, ← List.foldl_append]

/-- A fetch environment for the isolation witness: skills 5 and 7 each yield
one payload, anything else raises before yielding. -/
def fetchW6 : Nat → FetchOutcome := fun k =>
  if k = 5 then ([mkPayload (some 31) (some 1) none []], none)
  else if k = 7 then ([mkPayload (some 32) (some 1) none []], none)
  else ([], some ())

/-- C6 witness: with skill 1's fetch raising, the cycle over [5, 1, 7] ends in
the same state as the cycle over [5, 7]; both categories 5 and 7 were
attempted and upserted. -/
theorem category_isolation_witness :
    ingestRun (fun _ => false) fetchW6 { projects := [], jobs := [] } ([5] ++ 1 :: [7]) =
      ingestRun (fun _ => false) fetchW6 { projects := [], jobs := [] } ([5] ++ [7]) :=
  category_isolation (fun _ => false) fetchW6 { projects := [], jobs := [] } [5] [7] 1 rfl

/-- The head of the request-offset list is the starting offset. -/
theorem requestOffsets_head (offset : Nat) (pages : List (List Payload)) :
    (requestOffsets offset pages).head? = some offset := by
  cases pages <;> rfl

/-- One request per page plus the final empty-page request. -/
theorem requestOffsets_length (pages : List (List Payload)) :
    ∀ offset : Nat, (requestOffsets offset pages).length = pages.length + 1 := by
  induction pages with
  | nil => intro offset; rfl
  | cons p rest ih => intro offset; simp [requestOffsets, ih]

/-- When every page is non-empty, the requested offsets strictly increase. -/
theorem requestOffsets_chain (pages : List (List Payload)) :
    ∀ offset : Nat, (∀ p ∈ pages, p ≠ []) →
      List.Chain' (· < ·) (requestOffsets offset pages) := by
  induction pages with
  | nil =>
    intro offset _
    simp [requestOffsets]
  | cons p rest ih =>
    intro offset hne
    rw [requestOffsets, List.chain'_cons']
    constructor
    · intro b hb
      rw [requestOffsets_head] at hb
      have hp : p ≠ [] := hne p (List.mem_cons_self p rest)
      have hl : 0 < p.length := List.length_pos.mpr hp
      have hb' : offset + p.length = b := by simpa using hb
      omega
    · exact ih (offset + p.length) (fun q hq => hne q (List.mem_cons_of_mem p hq))

/-- The pagination loop run against a server that serves `pages` then an empty
page, from any starting offset, with enough fuel, yields the offsets and the
concatenation of the pages. -/
theorem fetchAllAux_serves (server : Nat → Nat → ApiResponse) (skill_id : Nat)
    (pages : List (List Payload)) :
    ∀ (offset fuel : Nat), (∀ p ∈ pages, p ≠ []) →
      serves server skill_id offset pages → pages.length < fuel →
      fetchAllAux server skill_id offset fuel =
        some (requestOffsets offset pages, pages.flatten) := by
  induction pages with
  | nil =>
    intro offset fuel _ hs hf
    cases fuel with
    | zero => omega
    | succ fuel =>
      simp only [serves] at hs
      simp [fetchAllAux, hs, requestOffsets]
  | cons p rest ih =>
    intro offset fuel hne hs hf
    cases fuel with
    | zero => omega
    | succ fuel =>
      obtain ⟨hs1, hs2⟩ := hs
      have hp : p ≠ [] := hne p (List.mem_cons_self p rest)
      have hrec := ih (offset + p.length) fuel
        (fun q hq => hne q (List.mem_cons_of_mem p hq)) hs2 (by simp at hf; omega)
      simp only [fetchAllAux, hs1, if_neg hp, hrec]
      simp [requestOffsets]

/-- C3: given an upstream page sequence of zero or more non-empty pages
followed by an empty page, `fetch_all_for_skill` yields exactly the
concatenation of the non-empty pages in order and then stops: it makes one
request per page plus the terminating zero-item request, at strictly
increasing offsets. -/
theorem fetch_all_concat (server : Nat → Nat → ApiResponse) (skill_id : Nat)
    (pages : List (List Payload)) (fuel : Nat)
    (hne : ∀ p ∈ pages, p ≠ [])
    (hs : serves server skill_id 0 pages)
    (hf : pages.length < fuel) :
    fetch_all_for_skill server skill_id fuel =
      some (requestOffsets 0 pages, pages.flatten) ∧
    List.Chain' (· < ·) (requestOffsets 0 pages) ∧
    (requestOffsets 0 pages).length = pages.length + 1 :=
  ⟨fetchAllAux_serves server skill_id pages 0 fuel hne hs hf,
   requestOffsets_chain pages 0 hne,
   requestOffsets_length pages 0⟩

/-- Two concrete pages for the pagination witness. -/
def pageA : List Payload :=
  [mkPayload (some 1) (some 1) none [], mkPayload (some 2) (some 1) none []]

/-- The second concrete page. -/
def pageB : List Payload := [mkPayload (some 3) (some 1) none []]

/-- A concrete server: page A at offset 0 as a bare array, page B at offset 2
under the `results` key, and an empty `projects` array past that. -/
def srvW3 : Nat → Nat → ApiResponse := fun _ o =>
  if o = 0 then .bare pageA
  else if o = 2 then .envelope none (some pageB)
  else .envelope (some []) none

/-- C3 witness: the pagination theorem applied to the concrete two-page
server. -/
theorem fetch_all_concat_witness :
    fetch_all_for_skill srvW3 9 3 =
      some (requestOffsets 0 [pageA, pageB], [pageA, pageB].flatten) ∧
    List.Chain' (· < ·) (requestOffsets 0 [pageA, pageB]) ∧
    (requestOffsets 0 [pageA, pageB]).length = [pageA, pageB].length + 1 :=
  fetch_all_concat srvW3 9 [pageA, pageB] 3 (by decide)
    ⟨rfl, rfl, rfl⟩ (by decide)

/-- A property preserved by every fold step holds of the fold. -/
theorem foldl_invariant {α : Type _} {β : Type _} (P : α → Prop) (f : α → β → α)
    (step : ∀ a b, P a → P (f a b)) :
    ∀ (l : List β) (a : α), P a → P (l.foldl f a) := by
  intro l
  induction l with
  | nil => intro a h; exact h
  | cons x xs ih => intro a h; exact ih (f a x) (step a x h)

/-- A property of the cycle state preserved by every payload step holds of the
whole ingest run, whatever the fetch outcomes. -/
theorem ingest_invariant (P : IngestState → Prop) (oracle : Payload → Bool)
    (fetch : Nat → FetchOutcome)
    (step : ∀ st p, P st → P (processPayload oracle st p)) (db : DB)
    (skills : List Nat) (hinit : P (initState db)) :
    P (ingestRun oracle fetch db skills) := by
  unfold ingestRun
  refine foldl_invariant P _ ?_ skills _ hinit
  intro st sk h
  unfold processSkill
  exact foldl_invariant P _ step _ st h

/-- The dedup invariant of `ingest_once`'s cycle state: the seen set is
exactly the ids of the successful upsert invocations in order, the processed
counter is its size, and it has no duplicates. -/
def goodState (st : IngestState) : Prop :=
  st.seen = (st.calls.filter (fun c => c.2)).map (fun c => c.1) ∧
  st.processed = st.seen.length ∧
  st.seen.Nodup

/-- A payload step preserves the dedup invariant. -/
theorem goodState_step (oracle : Payload → Bool) (st : IngestState) (p : Payload)
    (h : goodState st) : goodState (processPayload oracle st p) := by
  obtain ⟨h1, h2, h3⟩ := h
  unfold processPayload
  by_cases hm : p.project_id ∈ st.seen
  · simpa [hm] using ⟨h1, h2, h3⟩
  · simp only [hm, if_false, ite_false]
    cases htry : tryUpsert oracle st.db p with
    | none =>
      refine ⟨?_, h2, h3⟩
      simp [List.filter_append, h1]
    | some db' =>
      refine ⟨?_, ?_, ?_⟩
      · simp [List.filter_append, h1]
      · simp [h2]
      · simp only [List.nodup_append, List.nodup_cons, List.nodup_nil]
        exact ⟨h3, by simp, by simpa [List.disjoint_singleton] using hm⟩

/-- The dedup invariant holds at the end of every ingest run. -/
theorem goodState_ingestRun (oracle : Payload → Bool) (fetch : Nat → FetchOutcome)
    (db : DB) (skills : List Nat) : goodState (ingestRun oracle fetch db skills) :=
  ingest_invariant goodState oracle fetch (goodState_step oracle) db skills
    (by exact ⟨rfl, rfl, List.nodup_nil⟩)

/-- C10: at the end of every cycle the seen set is exactly the list of project
ids whose upsert returned successfully, in order and without repetition; the
value `ingest_once` returns is its size, i.e. the number of distinct project
ids successfully upserted; and a payload whose id is not yet seen and whose
upsert raises leaves the state unchanged apart from the recorded failed
invocation — so the id stays off the seen set, eligible for a retry under a
later category. -/
theorem seen_tracks_success (oracle : Payload → Bool) (fetch : Nat → FetchOutcome)
    (db : DB) (skills : List Nat) :
    (ingestRun oracle fetch db skills).seen =
      ((ingestRun oracle fetch db skills).calls.filter (fun c => c.2)).map
        (fun c => c.1) ∧
    ingest_once oracle fetch db skills =
      (ingestRun oracle fetch db skills).seen.length ∧
    (ingestRun oracle fetch db skills).seen.Nodup ∧
    ingest_once oracle fetch db skills =
      (((ingestRun oracle fetch db skills).calls.filter (fun c => c.2)).map
        (fun c => c.1)).dedup.length ∧
    (∀ st : IngestState, ∀ p : Payload, p.project_id ∉ st.seen →
      tryUpsert oracle st.db p = none →
      processPayload oracle st p = { st with calls := st.calls ++ [(p.project_id, false)] }) := by
  obtain ⟨h1, h2, h3⟩ := goodState_ingestRun oracle fetch db skills
  refine ⟨h1, h2, h3, ?_, ?_⟩
  · rw [ingest_once, h2, ← h1, List.dedup_eq_self.mpr h3]
  · intro st p hm htry
    simp [processPayload, hm, htry]

/-- A list without duplicates holds any given value at most once. -/
theorem countP_beq_le_one_of_nodup {α : Type _} [BEq α] [LawfulBEq α]
    {l : List α} (h : l.Nodup) (a : α) : l.countP (fun x => x == a) ≤ 1 := by
  induction l with
  | nil => simp
  | cons b bs ih =>
    rcases List.nodup_cons.mp h with ⟨hb, hbs⟩
    rw [List.countP_cons]
    by_cases hba : b = a
    · have h0 : bs.countP (fun x => x == a) = 0 := by
        apply List.countP_eq_zero.mpr
        intro x hx
        simp only [beq_iff_eq]
        intro hxa
        exact hb (by rw [hba, ← hxa]; exact hx)
      simp [h0, hba]
    · have hf : (b == a) = false := by simpa using hba
      simpa [hf] using ih hbs

/-- Successful upsert invocations for any one project id, counted in the
run's call trace, never exceed one. -/
theorem countP_success_le_one (oracle : Payload → Bool) (fetch : Nat → FetchOutcome)
    (db : DB) (skills : List Nat) (pid : Option Int) :
    ((ingestRun oracle fetch db skills).calls.countP
      (fun c => c.1 == pid && c.2)) ≤ 1 := by
  obtain ⟨h1, _, h3⟩ := goodState_ingestRun oracle fetch db skills
  have e1 : ((ingestRun oracle fetch db skills).calls.countP
      (fun c => c.1 == pid && c.2)) =
      (((ingestRun oracle fetch db skills).calls.filter (fun c => c.2)).countP
        (fun c => c.1 == pid)) := by
    rw [List.countP_filter]
  have e2 : (((ingestRun oracle fetch db skills).calls.filter (fun c => c.2)).countP
      (fun c => c.1 == pid)) =
      ((((ingestRun oracle fetch db skills).calls.filter (fun c => c.2)).map
        (fun c => c.1)).countP (fun x => x == pid)) := by
    rw [List.countP_map]
    rfl
  rw [e1, e2, ← h1]
  exact countP_beq_le_one_of_nodup h3 pid

/-- C1 amended: within one cycle, a payload whose project id is already in
the seen set is skipped with no upsert attempted; a not-yet-seen payload is
forwarded, and its id enters the seen set only if the upsert returns.  Hence
the upsert completes successfully at most once per project id per cycle, and
in any cycle in which every recorded upsert invocation succeeded — no attempt
raised — the upsert is *invoked* at most once per project id; the guarantee
is conditional on that absence of upsert failures. -/
theorem dedup_at_most_once (oracle : Payload → Bool) (fetch : Nat → FetchOutcome)
    (db : DB) (skills : List Nat) :
    (∀ pid : Option Int,
      ((ingestRun oracle fetch db skills).calls.countP
        (fun c => c.1 == pid && c.2)) ≤ 1) ∧
    ((∀ c ∈ (ingestRun oracle fetch db skills).calls, c.2 = true) →
      ∀ pid : Option Int,
        ((ingestRun oracle fetch db skills).calls.countP
          (fun c => c.1 == pid)) ≤ 1) ∧
    (∀ st : IngestState, ∀ p : Payload, p.project_id ∈ st.seen →
      processPayload oracle st p = st) := by
  refine ⟨countP_success_le_one oracle fetch db skills, ?_, ?_⟩
  · intro hall pid
    have hco : ((ingestRun oracle fetch db skills).calls.countP
        (fun c => c.1 == pid)) =
        ((ingestRun oracle fetch db skills).calls.countP
          (fun c => c.1 == pid && c.2)) := by
      apply List.countP_congr
      intro c hc
      simp [hall c hc]
    rw [hco]
    exact countP_success_le_one oracle fetch db skills pid
  · intro st p hm
    simp [processPayload, hm]

/-- Two versions of a payload with project id 100: the first makes the upsert
raise under `oracleC1`, the second does not. -/
def pC1a : Payload := mkPayload (some 100) (some 1) (some "bad") []

/-- The second version of the id-100 payload. -/
def pC1b : Payload := mkPayload (some 100) (some 1) (some "ok") []

/-- An upsert oracle that raises exactly on the first version. -/
def oracleC1 : Payload → Bool := fun p => decide (p.title = some "bad")

/-- Skill 1 lists the first version, skill 2 the second: the same listing
appearing under two requested categories in one cycle. -/
def fetchC1 : Nat → FetchOutcome := fun k =>
  if k = 1 then ([pC1a], none) else if k = 2 then ([pC1b], none) else ([], none)

/-- C1 counterexample: a listing with project id 100 appears under both
requested categories of one cycle, the first upsert raises, and
`upsert_from_payload` is invoked twice for that project id during the cycle —
more than once. -/
theorem dedup_counterexample :
    ((ingestRun oracleC1 fetchC1 { projects := [], jobs := [] } [1, 2]).calls.countP
      (fun c => c.1 == some 100)) = 2 := by decide

/-- Replacing association sets never touches the `project_id` column, so any
per-id row count is unchanged. -/
theorem countP_setJobIds (ps : List ProjectRow) (pid' : Int) (ids : List Nat)
    (pid : Int) :
    ((setJobIds ps pid' ids).countP (fun r => r.project_id == pid)) =
      ps.countP (fun r => r.project_id == pid) := by
  unfold setJobIds
  rw [List.countP_map]
  apply List.countP_congr
  intro r _
  by_cases h : r.project_id = pid' <;> simp [h]

/-- `update_or_create` leaves exactly one row with the key: it updates the one
existing row, or appends one when none exists. -/
theorem countP_applyDefaults (ps : List ProjectRow) (pid : Int)
    (fields : ProjectFields)
    (hle : ps.countP (fun r => r.project_id == pid) ≤ 1) :
    ((applyDefaults ps pid fields).countP (fun r => r.project_id == pid)) = 1 := by
  unfold applyDefaults
  by_cases h : ps.any (fun r => r.project_id = pid)
  · rw [if_pos h, List.countP_map]
    have he : ps.countP ((fun r : ProjectRow => r.project_id == pid) ∘
        (fun r => if r.project_id = pid then { r with fields := fields } else r)) =
        ps.countP (fun r => r.project_id == pid) := by
      apply List.countP_congr
      intro r _
      by_cases hr : r.project_id = pid <;> simp [hr]
    rw [he]
    have hpos : 0 < ps.countP (fun r => r.project_id == pid) := by
      rw [List.countP_pos_iff]
      obtain ⟨r, hr, hpr⟩ := List.any_eq_true.mp h
      exact ⟨r, hr, by simpa using hpr⟩
    omega
  · rw [if_neg h, List.countP_append]
    have h0 : ps.countP (fun r => r.project_id == pid) = 0 := by
      apply List.countP_eq_zero.mpr
      intro r hr
      have := List.any_eq_false.mp (Bool.eq_false_iff.mpr h) r hr
      simpa using this
    simp [h0]

/-- Every key-matching row after `update_or_create` carries the new
defaults. -/
theorem mem_applyDefaults_fields (ps : List ProjectRow) (pid : Int)
    (fields : ProjectFields) :
    ∀ r ∈ applyDefaults ps pid fields, r.project_id = pid → r.fields = fields := by
  intro r hr hpid
  unfold applyDefaults at hr
  by_cases h : ps.any (fun q => q.project_id = pid)
  · rw [if_pos h] at hr
    obtain ⟨r0, _, heq⟩ := List.mem_map.mp hr
    by_cases h0 : r0.project_id = pid
    · rw [if_pos h0] at heq
      rw [← heq]
    · rw [if_neg h0] at heq
      rw [← heq] at hpid
      exact absurd hpid h0
  · rw [if_neg h] at hr
    rcases List.mem_append.mp hr with h1 | h1
    · have := List.any_eq_false.mp (Bool.eq_false_iff.mpr h) r h1
      simp at this
      exact absurd hpid this
    · simp at h1
      rw [h1]

/-- Every key-matching row after the defaults update followed by the
association replace carries the new defaults and exactly the new association
set. -/
theorem pid_row_after (ps : List ProjectRow) (pid : Int) (fields : ProjectFields)
    (ids : List Nat) :
    ∀ r ∈ setJobIds (applyDefaults ps pid fields) pid ids,
      r.project_id = pid → r.fields = fields ∧ r.jobIds = ids := by
  intro r hr hpid
  unfold setJobIds at hr
  obtain ⟨r0, hr0, heq⟩ := List.mem_map.mp hr
  by_cases h0 : r0.project_id = pid
  · rw [if_pos h0] at heq
    rw [← heq]
    exact ⟨mem_applyDefaults_fields ps pid fields r0 hr0 h0, rfl⟩
  · rw [if_neg h0] at heq
    rw [← heq] at hpid
    exact absurd hpid h0

/-- `upsert_from_payload` on a payload with a submit date and a project id
computes the defaults-update, the Job upserts and the association replace. -/
theorem upsert_ok_eq (db : DB) (p : Payload) (ms : Int) (pid : Int)
    (hsd : p.submit_date = some ms) (hpid : p.project_id = some pid) :
    upsert_from_payload db p = .ok
      { projects := setJobIds (applyDefaults db.projects pid (fieldsOfPayload p ms))
          pid (((p.jobs.filterMap id).map (fun j => j.id)).dedup)
        jobs := (p.jobs.filterMap id).foldl upsertJob db.jobs } := by
  simp [upsert_from_payload, hsd, hpid]

/-- C4: upserting two payloads with the same project id in sequence leaves
exactly one stored row for that id, carrying the second payload's field
values and exactly the second payload's category association set — in
particular, a second payload with zero job references clears all existing
associations of the row instead of merging. -/
theorem upsert_idempotent (db db1 db2 : DB) (p1 p2 : Payload) (pid : Int)
    (hnodup : db.projects.countP (fun r => r.project_id == pid) ≤ 1)
    (hp1 : p1.project_id = some pid) (hp2 : p2.project_id = some pid)
    (h1 : upsert_from_payload db p1 = .ok db1)
    (h2 : upsert_from_payload db1 p2 = .ok db2) :
    (db2.projects.countP (fun r => r.project_id == pid)) = 1 ∧
    (∀ r ∈ db2.projects, r.project_id = pid →
      r.fields = fieldsOfPayload p2 (p2.submit_date.getD 0) ∧
      r.jobIds = ((p2.jobs.filterMap id).map (fun j => j.id)).dedup) ∧
    (p2.jobs.filterMap id = [] →
      ∀ r ∈ db2.projects, r.project_id = pid → r.jobIds = []) := by
  cases hsd1 : p1.submit_date with
  | none => rw [upsert_from_payload, hsd1] at h1; exact absurd h1 (by simp)
  | some ms1 =>
  cases hsd2 : p2.submit_date with
  | none => rw [upsert_from_payload, hsd2] at h2; exact absurd h2 (by simp)
  | some ms2 =>
  rw [upsert_ok_eq db p1 ms1 pid hsd1 hp1, Except.ok.injEq] at h1
  rw [upsert_ok_eq db1 p2 ms2 pid hsd2 hp2, Except.ok.injEq] at h2
  have hdb1 : db1.projects =
      setJobIds (applyDefaults db.projects pid (fieldsOfPayload p1 ms1)) pid
        (((p1.jobs.filterMap id).map (fun j => j.id)).dedup) := by
    rw [← h1]
  have hdb2 : db2.projects =
      setJobIds (applyDefaults db1.projects pid (fieldsOfPayload p2 ms2)) pid
        (((p2.jobs.filterMap id).map (fun j => j.id)).dedup) := by
    rw [← h2]
  have hc1 : db1.projects.countP (fun r => r.project_id == pid) = 1 := by
    rw [hdb1, countP_setJobIds]
    exact countP_applyDefaults db.projects pid _ hnodup
  have hc2 : db2.projects.countP (fun r => r.project_id == pid) = 1 := by
    rw [hdb2, countP_setJobIds]
    exact countP_applyDefaults db1.projects pid _ (by omega)
  refine ⟨hc2, ?_, ?_⟩
  · intro r hr hrpid
    rw [hdb2] at hr
    have := pid_row_after db1.projects pid (fieldsOfPayload p2 ms2) _ r hr hrpid
    simpa [hsd2] using this
  · intro hjobs r hr hrpid
    rw [hdb2, hjobs] at hr
    have := pid_row_after db1.projects pid (fieldsOfPayload p2 ms2) _ r hr hrpid
    simpa using this.2

/-- First witness payload: project id 100, one job reference. -/
def pW4a : Payload := mkPayload (some 100) (some 5) (some "t1") [some ⟨7, some "a"⟩]

/-- Second witness payload: same project id, new fields, zero job
references. -/
def pW4b : Payload := mkPayload (some 100) (some 6) (some "t2") []

/-- The store after upserting the first witness payload into an empty one. -/
def dbW4a : DB :=
  { projects := [⟨100, fieldsOfPayload pW4a 5, [7]⟩], jobs := [⟨7, "a"⟩] }

/-- The store after then upserting the second witness payload: one row, the
new fields, the association set cleared. -/
def dbW4b : DB :=
  { projects := [⟨100, fieldsOfPayload pW4b 6, []⟩], jobs := [⟨7, "a"⟩] }

/-- C4 witness: the idempotence theorem applied to the two concrete versions
of project 100 over the empty store. -/
theorem upsert_idempotent_witness :
    (dbW4b.projects.countP (fun r => r.project_id == 100)) = 1 ∧
    (∀ r ∈ dbW4b.projects, r.project_id = 100 →
      r.fields = fieldsOfPayload pW4b (pW4b.submit_date.getD 0) ∧
      r.jobIds = ((pW4b.jobs.filterMap id).map (fun j => j.id)).dedup) ∧
    (pW4b.jobs.filterMap id = [] →
      ∀ r ∈ dbW4b.projects, r.project_id = 100 → r.jobIds = []) :=
  upsert_idempotent { projects := [], jobs := [] } dbW4a dbW4b pW4a pW4b 100
    (by decide) rfl rfl rfl rfl

/-- The observable part of the cycle state for isolation arguments: counter,
seen set and store — everything except the bookkeeping call trace. -/
def coreOf (st : IngestState) : Nat × List (Option Int) × DB :=
  (st.processed, st.seen, st.db)

/-- Two cycle states agreeing on counter, seen set and store keep agreeing
after processing the same payload. -/
theorem coreOf_step_congr (oracle : Payload → Bool) (st st' : IngestState)
    (p : Payload) (h : coreOf st = coreOf st') :
    coreOf (processPayload oracle st p) = coreOf (processPayload oracle st' p) := by
  have hp : st.processed = st'.processed := congrArg (fun x => x.1) h
  have hs : st.seen = st'.seen := congrArg (fun x => x.2.1) h
  have hd : st.db = st'.db := congrArg (fun x => x.2.2) h
  simp only [processPayload]
  by_cases hm : p.project_id ∈ st'.seen
  · have hm' : p.project_id ∈ st.seen := by rw [hs]; exact hm
    simp [hm, hm', h]
  · have hm' : p.project_id ∉ st.seen := by rw [hs]; exact hm
    rw [if_neg hm', if_neg hm, hd]
    cases htry : tryUpsert oracle st'.db p with
    | none => simp [coreOf, hp, hs, hd]
    | some db' => simp [coreOf, hp, hs]

/-- Core agreement is preserved by folding the same payload list. -/
theorem coreOf_foldl_congr (oracle : Payload → Bool) (ps : List Payload) :
    ∀ st st' : IngestState, coreOf st = coreOf st' →
      coreOf (ps.foldl (processPayload oracle) st) =
        coreOf (ps.foldl (processPayload oracle) st') := by
  induction ps with
  | nil => intro st st' h; exact h
  | cons p rest ih =>
    intro st st' h
    exact ih _ _ (coreOf_step_congr oracle st st' p h)

/-- A payload whose upsert raises at every store leaves the core of the cycle
state unchanged, whether it was skipped or attempted. -/
theorem coreOf_skip_fail (oracle : Payload → Bool) (st : IngestState) (p : Payload)
    (hfail : ∀ d : DB, tryUpsert oracle d p = none) :
    coreOf (processPayload oracle st p) = coreOf st := by
  simp only [processPayload]
  by_cases hm : p.project_id ∈ st.seen
  · simp [hm]
  · simp [hm, hfail st.db, coreOf]

/-- Dropping an always-failing payload from the middle of a payload list does
not change the core reached by the fold. -/
theorem coreOf_fold_drop_fail (oracle : Payload → Bool) (xs ys : List Payload)
    (p : Payload) (hfail : ∀ d : DB, tryUpsert oracle d p = none) :
    ∀ st st' : IngestState, coreOf st = coreOf st' →
      coreOf ((xs ++ p :: ys).foldl (processPayload oracle) st) =
        coreOf ((xs ++ ys).foldl (processPayload oracle) st') := by
  intro st st' h
  rw [List.foldl_append, List.foldl_cons, List.foldl_append]
  apply coreOf_foldl_congr
  calc coreOf (processPayload oracle (xs.foldl (processPayload oracle) st) p)
      = coreOf (xs.foldl (processPayload oracle) st) :=
        coreOf_skip_fail oracle _ p hfail
    _ = coreOf (xs.foldl (processPayload oracle) st') :=
        coreOf_foldl_congr oracle xs st st' h

/-- C7: a payload whose upsert raises (in particular one missing its project
id) is fatal only for itself: the cycle over fetches in which it appears
reaches exactly the same counter, seen set and store as the cycle in which it
does not appear at all — the remaining payloads of its category and all other
categories proceed unaffected; and a payload missing `project_id` makes the
upsert call raise, whatever the store. -/
theorem record_isolation (oracle : Payload → Bool)
    (fetch fetchB : Nat → FetchOutcome) (db : DB) (skills : List Nat) (k : Nat)
    (xs ys : List Payload) (p : Payload) (e : Option Unit)
    (hfail : ∀ d : DB, tryUpsert oracle d p = none)
    (hk : fetch k = (xs ++ p :: ys, e))
    (hkB : fetchB k = (xs ++ ys, e))
    (hother : ∀ j : Nat, j ≠ k → fetchB j = fetch j) :
    coreOf (ingestRun oracle fetch db skills) =
      coreOf (ingestRun oracle fetchB db skills) ∧
    (∀ (d : DB) (q : Payload), q.project_id = none → tryUpsert oracle d q = none) := by
  constructor
  · unfold ingestRun
    suffices hgen : ∀ (sk : List Nat) (st st' : IngestState), coreOf st = coreOf st' →
        coreOf (sk.foldl (processSkill oracle fetch) st) =
          coreOf (sk.foldl (processSkill oracle fetchB) st') by
      exact hgen skills _ _ rfl
    intro sk
    induction sk with
    | nil => intro st st' h; exact h
    | cons a rest ih =>
      intro st st' h
      apply ih
      by_cases ha : a = k
      · subst ha
        simp only [processSkill, hk, hkB]
        exact coreOf_fold_drop_fail oracle xs ys p hfail st st' h
      · simp only [processSkill, hother a ha]
        exact coreOf_foldl_congr oracle _ st st' h
  · intro d q hq
    by_cases ho : oracle q
    · simp [tryUpsert, ho]
    · cases hqs : q.submit_date <;>
        simp [tryUpsert, ho, upsert_from_payload, hq, hqs]

/-- A payload with no `project_id` key. -/
def pBadW7 : Payload := mkPayload none (some 1) none []

/-- Skill 3 yields a good payload, then the id-less payload, then another good
payload; skill 8 yields one good payload. -/
def fetchW7 : Nat → FetchOutcome := fun k =>
  if k = 3 then ([mkPayload (some 41) (some 1) none [], pBadW7,
                  mkPayload (some 42) (some 1) none []], none)
  else if k = 8 then ([mkPayload (some 43) (some 1) none []], none)
  else ([], none)

/-- The same fetch environment with the id-less payload absent. -/
def fetchW7b : Nat → FetchOutcome := fun k =>
  if k = 3 then ([mkPayload (some 41) (some 1) none [],
                  mkPayload (some 42) (some 1) none []], none)
  else if k = 8 then ([mkPayload (some 43) (some 1) none []], none)
  else ([], none)

/-- C7 witness: the isolation theorem applied to the concrete cycle in which
skill 3's second payload is missing its project id. -/
theorem record_isolation_witness :
    coreOf (ingestRun (fun _ => false) fetchW7 { projects := [], jobs := [] } [3, 8]) =
      coreOf (ingestRun (fun _ => false) fetchW7b { projects := [], jobs := [] } [3, 8]) ∧
    (∀ (d : DB) (q : Payload), q.project_id = none →
      tryUpsert (fun _ => false) d q = none) :=
  record_isolation (fun _ => false) fetchW7 fetchW7b { projects := [], jobs := [] }
    [3, 8] 3 [mkPayload (some 41) (some 1) none []]
    [mkPayload (some 42) (some 1) none []] pBadW7 none
    (fun _ => rfl) rfl rfl
    (by intro j hj; simp [fetchW7, fetchW7b, hj])

end Kaya
